import Mathlib

/-!
# Runestone reconciliation pipeline — verification development

A shallow embedding, in Lean 4, of the core of the Runestone
infrastructure-management engine (Go sources under `internal/` and `cmd/`):
the drift detector, the DAG level-grouping executor, the resource expander
with its expression-substitution pass, the policy engine with the bootstrap
gate, the commit executor, and the per-instance dispatch of the align controller.

Go dynamic values (`interface\x7b\x7d`) are embedded as the inductive `Value`;
Go `map[string]interface\x7b\x7d` as association lists (`StateMap`), keyed
uniquely the way Go maps are.  Fallible Go functions returning `error` become
`Except String` computations.  The third-party `expr-lang` compiler/runtime
used by `Parser.evaluateExpr` is an external dependency of the repository;
it is abstracted as an oracle parameter (`ExprOracle`), with `none` standing
for a compile or runtime failure.
-/

namespace Runestone

set_option autoImplicit false

/-- Embedding of Go dynamic values (`interface\x7b\x7d`): strings, integers,
booleans, sequences, string-keyed mappings, and the nil value. -/
inductive Value where
  | str (s : String)
  | int (n : Int)
  | bool (b : Bool)
  | list (xs : List Value)
  | map (kvs : List (String × Value))
  | null

mutual

/-- Structural (deep) equality on embedded dynamic values, the embedding of
`reflect.DeepEqual` on the fragment of Go values `Value` covers. -/
def Value.beq : Value → Value → Bool
  | .str a, .str b => a == b
  | .int a, .int b => a == b
  | .bool a, .bool b => a == b
  | .list xs, .list ys => Value.beqList xs ys
  | .map xs, .map ys => Value.beqMap xs ys
  | .null, .null => true
  | _, _ => false

/-- Elementwise deep equality on value sequences. -/
def Value.beqList : List Value → List Value → Bool
  | [], [] => true
  | x :: xs, y :: ys => Value.beq x y && Value.beqList xs ys
  | _, _ => false

/-- Entrywise deep equality on string-keyed mappings. -/
def Value.beqMap : List (String × Value) → List (String × Value) → Bool
  | [], [] => true
  | (k, v) :: xs, (l, w) :: ys => k == l && Value.beq v w && Value.beqMap xs ys
  | _, _ => false

end

mutual

theorem Value.eq_of_beq : ∀ (a b : Value), Value.beq a b = true → a = b
  | .str _, .str _, h => by
      simp only [Value.beq, beq_iff_eq] at h; rw [h]
  | .int _, .int _, h => by
      simp only [Value.beq, beq_iff_eq] at h; rw [h]
  | .bool _, .bool _, h => by
      simp only [Value.beq, beq_iff_eq] at h; rw [h]
  | .list xs, .list ys, h => by
      rw [Value.eqList_of_beq xs ys h]
  | .map xs, .map ys, h => by
      rw [Value.eqMap_of_beq xs ys h]
  | .null, .null, _ => rfl

theorem Value.eqList_of_beq : ∀ (xs ys : List Value), Value.beqList xs ys = true → xs = ys
  | [], [], _ => rfl
  | x :: xs, y :: ys, h => by
      simp only [Value.beqList, Bool.and_eq_true] at h
      rw [Value.eq_of_beq x y h.1, Value.eqList_of_beq xs ys h.2]

theorem Value.eqMap_of_beq :
    ∀ (xs ys : List (String × Value)), Value.beqMap xs ys = true → xs = ys
  | [], [], _ => rfl
  | (k, v) :: xs, (l, w) :: ys, h => by
      simp only [Value.beqMap, Bool.and_eq_true, beq_iff_eq] at h
      rw [h.1.1, Value.eq_of_beq v w h.1.2, Value.eqMap_of_beq xs ys h.2]

end

mutual

theorem Value.beq_refl : ∀ a : Value, Value.beq a a = true
  | .str _ => by simp [Value.beq]
  | .int _ => by simp [Value.beq]
  | .bool _ => by simp [Value.beq]
  | .list xs => by simpa [Value.beq] using Value.beqList_refl xs
  | .map xs => by simpa [Value.beq] using Value.beqMap_refl xs
  | .null => rfl

theorem Value.beqList_refl : ∀ xs : List Value, Value.beqList xs xs = true
  | [] => rfl
  | x :: xs => by
      simp only [Value.beqList, Bool.and_eq_true]
      exact ⟨Value.beq_refl x, Value.beqList_refl xs⟩

theorem Value.beqMap_refl : ∀ xs : List (String × Value), Value.beqMap xs xs = true
  | [] => rfl
  | (k, v) :: xs => by
      simp only [Value.beqMap, Bool.and_eq_true, beq_self_eq_true]
      exact ⟨⟨trivial, Value.beq_refl v⟩, Value.beqMap_refl xs⟩

end

instance : DecidableEq Value := fun a b =>
  if h : Value.beq a b = true then .isTrue (Value.eq_of_beq a b h)
  else .isFalse (fun he => h (he ▸ Value.beq_refl a))

/-- A Go `map[string]interface\x7b\x7d`, embedded as an association list.
Go maps have unique keys; theorems that depend on key uniqueness take it
as an explicit hypothesis. -/
abbrev StateMap := List (String × Value)

/-- First-match association-list lookup (`m[k]` on a Go map). -/
def smLookup (m : StateMap) (k : String) : Option Value :=
  List.lookup k m

/-- `providers.DriftType` (part_014): the classification of one difference. -/
inductive DriftType where
  | added
  | removed
  | modified
deriving DecidableEq, Repr

/-- `providers.DriftDifference` (part_014): one structural difference between
current and desired state.  nil Go `interface\x7b\x7d` values become `none`. -/
structure DriftDifference where
  property : String
  currentValue : Option Value
  desiredValue : Option Value
  driftType : DriftType
deriving DecidableEq

/-- `Detector.valuesEqual` (part_004): nil equals nil, nil differs from
non-nil, otherwise `reflect.DeepEqual`, embedded as structural equality
on `Value`. -/
def valuesEqual (current desired : Value) : Bool :=
  current == desired

/-- `Detector.isMetadataField` (part_004): membership in the closed list of
ten metadata field names that are ignored when present only in live state. -/
def isMetadataField (fieldName : String) : Bool :=
  let metadataFields : List String :=
    ["arn", "id", "creation_date", "last_modified", "status", "state",
     "availability_zone", "instance_id", "vpc_id", "subnet_id"]
  metadataFields.contains fieldName

/-- `Detector.compareStates` (part_004): the `differences` map, keyed by
property name.  The first pass walks `desired` (producing `added` and
`modified` entries); the second walks `current` (producing `removed`
entries, except for metadata fields). -/
def compareStates (current desired : StateMap) : List (String × DriftDifference) :=
  (desired.filterMap fun kv =>
    match smLookup current kv.1 with
    | none =>
        some (kv.1, ⟨kv.1, none, some kv.2, DriftType.added⟩)
    | some currentValue =>
        if valuesEqual currentValue kv.2 then none
        else some (kv.1, ⟨kv.1, some currentValue, some kv.2, DriftType.modified⟩))
  ++ (current.filterMap fun kv =>
    match smLookup desired kv.1 with
    | some _ => none
    | none =>
        if isMetadataField kv.1 then none
        else some (kv.1, ⟨kv.1, some kv.2, none, DriftType.removed⟩))

/-- `providers.DriftResult` (part_014), restricted to the fields the drift
detector computes structurally (the human-readable `Changes` list is
derived presentation and omitted). -/
structure DriftResult where
  hasDrift : Bool
  differences : List (String × DriftDifference)
  currentState : Option StateMap
  desiredState : StateMap
deriving DecidableEq

/-- `Detector.DetectDrift` (part_004), after the provider lookup and
`GetCurrentState` call: `currentState` is the state the provider returned
(`none` for an absent resource).  Absent → drift with empty differences;
present → drift iff the computed differences are non-empty. -/
def detectDrift (currentState : Option StateMap) (desired : StateMap) : DriftResult :=
  match currentState with
  | none =>
      { hasDrift := true
        differences := []
        currentState := none
        desiredState := desired }
  | some current =>
      let differences := compareStates current desired
      { hasDrift := differences.length > 0
        differences := differences
        currentState := some current
        desiredState := desired }


theorem smLookup_ne_none_of_mem {m : StateMap} {k : String} {v : Value}
    (h : (k, v) ∈ m) : smLookup m k ≠ none := by
  induction m with
  | nil => cases h
  | cons kv t ih =>
      obtain ⟨k1, v1⟩ := kv
      simp only [smLookup, List.lookup] at *
      rcases List.mem_cons.mp h with heq | ht
      · obtain ⟨rfl, rfl⟩ := Prod.mk.injEq .. ▸ heq
        simp
      · by_cases hk : k = k1
        · simp [hk]
        · simpa [beq_eq_false_iff_ne.mpr hk] using ih ht

/-- C1: `DetectDrift` signals drift with empty differences exactly when the
provider reports the resource absent; otherwise drift holds iff the computed
differences are non-empty.  Overall, `hasDrift` iff differences non-empty or
current state absent. -/
theorem detectDrift_hasDrift_spec (currentState : Option StateMap) (desired : StateMap) :
    (currentState = none →
      (detectDrift currentState desired).hasDrift = true ∧
      (detectDrift currentState desired).differences = []) ∧
    ((detectDrift currentState desired).hasDrift = true ↔
      (detectDrift currentState desired).differences ≠ [] ∨ currentState = none) := by
  cases currentState with
  | none => simp [detectDrift]
  | some current =>
      constructor
      · intro h
        exact absurd h (by simp)
      · simp only [detectDrift, decide_eq_true_eq, gt_iff_lt, List.length_pos]
        simp

theorem detectDrift_hasDrift_spec_witness :
    ((detectDrift none [("a", Value.int 1)]).hasDrift = true ∧
      (detectDrift none [("a", Value.int 1)]).differences = []) ∧
    ((detectDrift (some []) [("a", Value.int 1)]).hasDrift = true ↔
      (detectDrift (some []) [("a", Value.int 1)]).differences ≠ [] ∨
        (some [] : Option StateMap) = none) :=
  ⟨(detectDrift_hasDrift_spec none [("a", Value.int 1)]).1 rfl,
   (detectDrift_hasDrift_spec (some []) [("a", Value.int 1)]).2⟩

/-- C2: a property in the closed metadata set that is present only in the
live (current) state never appears in the computed differences, under any
classification; in particular it is never classified as removed. -/
theorem compareStates_metadata_never_differs (current desired : StateMap) (k : String)
    (hmeta : isMetadataField k = true) (habsent : smLookup desired k = none) :
    ∀ d : DriftDifference, (k, d) ∉ compareStates current desired := by
  intro d hd
  simp only [compareStates, List.mem_append] at hd
  rcases hd with hd | hd
  · obtain ⟨⟨k1, v⟩, hkv, hmap⟩ := List.mem_filterMap.mp hd
    have hk : k1 = k := by
      cases hcur : smLookup current k1 with
      | none =>
          simp only [hcur, Option.some.injEq, Prod.mk.injEq] at hmap
          exact hmap.1
      | some cv =>
          simp only [hcur] at hmap
          by_cases hv : valuesEqual cv v = true
          · simp [hv] at hmap
          · simp only [Bool.not_eq_true] at hv
            simp [hv] at hmap
            exact hmap.1
    exact smLookup_ne_none_of_mem (hk ▸ hkv) habsent
  · obtain ⟨⟨k1, v⟩, hkv, hmap⟩ := List.mem_filterMap.mp hd
    cases hdes : smLookup desired k1 with
    | some cv => simp [hdes] at hmap
    | none =>
        simp only [hdes] at hmap
        by_cases hm : isMetadataField k1 = true
        · simp [hm] at hmap
        · simp only [Bool.not_eq_true] at hm
          simp [hm] at hmap
          rw [hmap.1, hmeta] at hm
          exact Bool.noConfusion hm

theorem compareStates_metadata_never_differs_witness :
    ("arn", (⟨"arn", some (Value.str "x"), none, DriftType.removed⟩ : DriftDifference)) ∉
      compareStates [("arn", Value.str "x")] [] :=
  compareStates_metadata_never_differs [("arn", Value.str "x")] [] "arn" (by decide) rfl _


/-- The node table of `executor.DAG` after `NewDAG` has built dependency
relationships: each node ID paired with the `Dependencies` list of that node.  Go map
keys are unique, which theorems take as a `Nodup` hypothesis. -/
abbrev DagNodes := List (String × List String)

/-- The body of the level-collection pass of `DAG.GetExecutionOrder`
(part_004): the IDs of all not-yet-processed nodes all of whose
dependencies are processed. -/
def eligibleIds (nodes : DagNodes) (processed : List String) : List String :=
  (nodes.filter fun n =>
    decide (n.1 ∉ processed) && n.2.all fun d => decide (d ∈ processed)).map Prod.fst

/-- `sort.Strings` on one level: sort lexicographically for determinism. -/
def sortLevel (level : List String) : List String :=
  level.insertionSort (· ≤ ·)

/-- The loop of `DAG.GetExecutionOrder` (part_004).  The Go loop runs while
`len(processed) < len(nodes)` and breaks on an empty level; each iteration
grows `processed` by at least one element, so `nodes.length` units of fuel
are enough to never cut the loop short. -/
def getExecutionOrderAux (nodes : DagNodes) : Nat → List String → List (List String)
  | 0, _ => []
  | fuel + 1, processed =>
      if processed.length < nodes.length then
        let level := sortLevel (eligibleIds nodes processed)
        if level.isEmpty then []
        else level :: getExecutionOrderAux nodes fuel (processed ++ level)
      else []

/-- `DAG.GetExecutionOrder` (part_004): the level grouping used by the
commit executor. -/
def getExecutionOrder (nodes : DagNodes) : List (List String) :=
  getExecutionOrderAux nodes nodes.length []

theorem deps_eq_of_keys_nodup {nodes : DagNodes}
    (hnd : (nodes.map Prod.fst).Nodup) {id : String} {deps deps' : List String}
    (h1 : (id, deps) ∈ nodes) (h2 : (id, deps') ∈ nodes) : deps = deps' := by
  induction nodes with
  | nil => cases h1
  | cons hd t ih =>
      obtain ⟨hk, hnd'⟩ := List.nodup_cons.mp hnd
      rcases List.mem_cons.mp h1 with rfl | h1'
      · rcases List.mem_cons.mp h2 with heq | h2'
        · exact (Prod.ext_iff.mp heq).2.symm
        · exact absurd (List.mem_map_of_mem Prod.fst h2') hk
      · rcases List.mem_cons.mp h2 with rfl | h2'
        · exact absurd (List.mem_map_of_mem Prod.fst h1') hk
        · exact ih hnd' h1' h2'

theorem mem_sortLevel {level : List String} {a : String} :
    a ∈ sortLevel level ↔ a ∈ level :=
  (List.perm_insertionSort (· ≤ ·) level).mem_iff

theorem mem_eligibleIds {nodes : DagNodes} {processed : List String} {id : String}
    (h : id ∈ eligibleIds nodes processed) :
    ∃ deps, (id, deps) ∈ nodes ∧ id ∉ processed ∧ ∀ d ∈ deps, d ∈ processed := by
  obtain ⟨⟨id', deps⟩, hmem, heq⟩ := List.mem_map.mp h
  obtain ⟨hin, hfil⟩ := List.mem_filter.mp hmem
  simp only [Bool.and_eq_true, decide_eq_true_eq, List.all_eq_true] at hfil
  cases heq
  exact ⟨deps, hin, hfil.1, fun d hd => hfil.2 d hd⟩

theorem getExecutionOrderAux_deps_earlier (nodes : DagNodes)
    (hnd : (nodes.map Prod.fst).Nodup) :
    ∀ (fuel : Nat) (processed : List String) (li : Nat) (n : String)
      (deps : List String) (d : String),
      n ∈ (getExecutionOrderAux nodes fuel processed).getD li [] →
      (n, deps) ∈ nodes → d ∈ deps →
      d ∈ processed ∨
        ∃ lj, lj < li ∧ d ∈ (getExecutionOrderAux nodes fuel processed).getD lj [] := by
  intro fuel
  induction fuel with
  | zero =>
      intro processed li n deps d hn _ _
      simp [getExecutionOrderAux] at hn
  | succ fuel ih =>
      intro processed li n deps d hn hdeps hd
      by_cases hguard : processed.length < nodes.length
      · simp only [getExecutionOrderAux, if_pos hguard] at hn ⊢
        by_cases hempty : (sortLevel (eligibleIds nodes processed)).isEmpty
        · simp [hempty] at hn
        · simp only [hempty, Bool.false_eq_true, if_false] at hn ⊢
          cases li with
          | zero =>
              simp only [List.getD_cons_zero] at hn
              obtain ⟨deps0, hdeps0, _, hall⟩ := mem_eligibleIds (mem_sortLevel.mp hn)
              have : deps = deps0 := deps_eq_of_keys_nodup hnd hdeps hdeps0
              exact Or.inl (hall d (this ▸ hd))
          | succ lj =>
              simp only [List.getD_cons_succ] at hn
              rcases ih (processed ++ sortLevel (eligibleIds nodes processed))
                  lj n deps d hn hdeps hd with hin | ⟨lk, hlk, hmem⟩
              · rcases List.mem_append.mp hin with hin | hin
                · exact Or.inl hin
                · exact Or.inr ⟨0, Nat.succ_pos lj, hin⟩
              · exact Or.inr ⟨lk + 1, Nat.succ_lt_succ hlk, hmem⟩
      · simp only [getExecutionOrderAux, if_neg hguard] at hn
        simp at hn

theorem getExecutionOrderAux_sorted (nodes : DagNodes) :
    ∀ (fuel : Nat) (processed : List String) (li : Nat),
      ((getExecutionOrderAux nodes fuel processed).getD li []).Sorted (· ≤ ·) := by
  intro fuel
  induction fuel with
  | zero => intro processed li; simp [getExecutionOrderAux]
  | succ fuel ih =>
      intro processed li
      by_cases hguard : processed.length < nodes.length
      · simp only [getExecutionOrderAux, if_pos hguard]
        by_cases hempty : (sortLevel (eligibleIds nodes processed)).isEmpty
        · simp [hempty]
        · simp only [hempty, Bool.false_eq_true, if_false]
          cases li with
          | zero =>
              simpa [sortLevel] using
                List.sorted_insertionSort (· ≤ ·) (eligibleIds nodes processed)
          | succ lj => simpa using ih (processed ++ sortLevel (eligibleIds nodes processed)) lj
      · simp [getExecutionOrderAux, if_neg hguard]

/-- C3: in the level grouping computed by `GetExecutionOrder`, every
dependency of a node placed in level `li` is placed in a strictly earlier
level, and each level is lexicographically sorted.  (The `Nodup` hypothesis
reflects that the Go node table is a map keyed by node ID; acyclicity is not
even needed for these two facts.) -/
theorem getExecutionOrder_levels_spec (nodes : DagNodes)
    (hnd : (nodes.map Prod.fst).Nodup) :
    (∀ (li : Nat) (n : String) (deps : List String) (d : String),
      n ∈ (getExecutionOrder nodes).getD li [] →
      (n, deps) ∈ nodes → d ∈ deps →
      ∃ lj, lj < li ∧ d ∈ (getExecutionOrder nodes).getD lj []) ∧
    (∀ li : Nat, ((getExecutionOrder nodes).getD li []).Sorted (· ≤ ·)) := by
  constructor
  · intro li n deps d hn hdeps hd
    rcases getExecutionOrderAux_deps_earlier nodes hnd nodes.length [] li n deps d
        hn hdeps hd with hin | h
    · cases hin
    · exact h
  · intro li
    exact getExecutionOrderAux_sorted nodes nodes.length [] li

theorem getExecutionOrder_levels_spec_witness :
    ∃ lj, lj < 1 ∧ "a" ∈ (getExecutionOrder [("b", ["a"]), ("a", [])]).getD lj [] :=
  (getExecutionOrder_levels_spec [("b", ["a"]), ("a", [])] (by decide)).1
    1 "b" ["a"] "a" (by decide) (by decide) (by decide)

/-- `config.DriftPolicy` (part_006). -/
structure DriftPolicy where
  autoHeal : Bool
  notifyOnly : Bool
deriving DecidableEq

/-- `config.ResourceInstance` (part_006): the post-expansion unit. -/
structure ResourceInstance where
  id : String
  kind : String
  name : String
  properties : StateMap
  driftPolicy : Option DriftPolicy
  dependsOn : List String
deriving DecidableEq

/-- Bool test: does the second character list start with the first one? -/
def leadsWith : List Char → List Char → Bool
  | [], _ => true
  | _ :: _, [] => false
  | a :: as, b :: bs => a == b && leadsWith as bs

/-- `strings.Contains`: the pattern occurs as a substring. -/
def strContains (s pat : String) : Bool :=
  s.toList.tails.any fun t => leadsWith pat.toList t

/-- `strings.ReplaceAll` on character lists (the policy engine only ever
calls it with non-empty patterns; an empty pattern is returned unchanged
here).  Every step consumes at least one character of the subject, so
fuel equal to its length never cuts the scan short. -/
def replaceCharsAux (pat rep : List Char) : Nat → List Char → List Char
  | _, [] => []
  | 0, s => s
  | fuel + 1, c :: rest =>
      if pat ≠ [] ∧ leadsWith pat (c :: rest) then
        rep ++ replaceCharsAux pat rep fuel (List.drop (pat.length - 1) rest)
      else c :: replaceCharsAux pat rep fuel rest

/-- `strings.ReplaceAll`. -/
def strReplaceAll (s pat rep : String) : String :=
  ⟨replaceCharsAux pat.toList rep.toList s.toList.length s.toList⟩

/-- `policy.PolicyRule` (part_008), without the presentation-only
`Description` and `Metadata` fields. -/
structure PolicyRule where
  name : String
  severity : String
  condition : String
  message : String
deriving DecidableEq

/-- `policy.PolicyViolation` (part_008), without the back-pointer to the
rule object and the `Metadata` copy. -/
structure PolicyViolation where
  ruleName : String
  resourceId : String
  resourceKind : String
  message : String
  severity : String
deriving DecidableEq

/-- `PolicyEngine.evaluateRule` (part_008): substitute the two placeholders,
then run the three hard-coded substring-dispatched checks; the first
matching case decides, anything else is not violated. -/
def evaluateRule (rule : PolicyRule) (inst : ResourceInstance) : Bool :=
  let condition :=
    strReplaceAll (strReplaceAll rule.condition ("$\x7bresource.kind\x7d") inst.kind)
      ("$\x7bresource.name\x7d") inst.name
  if strContains condition
      "resource.kind == \x27aws:s3:bucket\x27 && !properties.versioning" then
    if inst.kind == "aws:s3:bucket" then
      match smLookup inst.properties "versioning" with
      | some (Value.bool true) => false
      | _ => true
    else false
  else if strContains condition
      "resource.kind == \x27aws:ec2:instance\x27 && properties.instance_type == \x27t3.large\x27" then
    inst.kind == "aws:ec2:instance" &&
      (match smLookup inst.properties "instance_type" with
       | some (Value.str t) => t == "t3.large"
       | _ => false)
  else if strContains condition "!tags.Environment" then
    match smLookup inst.properties "tags" with
    | some (Value.map tags) => (List.lookup "Environment" tags).isNone
    | _ => true
  else false

/-- `PolicyEngine.EvaluateResource` (part_008): every rule is evaluated
against the instance; each violated rule yields one violation. -/
def evaluateResource (rules : List PolicyRule) (inst : ResourceInstance) :
    List PolicyViolation :=
  rules.filterMap fun rule =>
    if evaluateRule rule inst then
      some { ruleName := rule.name
             resourceId := inst.id
             resourceKind := inst.kind
             message := rule.message
             severity := rule.severity }
    else none

/-- `PolicyEngine.HasErrors` (part_008). -/
def hasErrors (violations : List PolicyViolation) : Bool :=
  violations.any fun v => v.severity == "error"

/-- `PolicyEngine.LoadBuiltinPolicies` (part_008): the three built-in rules
(all pass the `AddRule` validity checks, so loading succeeds). -/
def builtinRules : List PolicyRule :=
  [ { name := "s3-versioning-enabled"
      severity := "warning"
      condition := "resource.kind == \x27aws:s3:bucket\x27 && !properties.versioning"
      message := "S3 bucket should have versioning enabled for data protection" },
    { name := "no-large-instances-in-dev"
      severity := "error"
      condition := "resource.kind == \x27aws:ec2:instance\x27 && properties.instance_type == \x27t3.large\x27"
      message := "Large instances are not allowed in development environments" },
    { name := "resources-must-have-environment-tag"
      severity := "warning"
      condition := "!tags.Environment"
      message := "Resource must have an Environment tag for proper resource management" } ]

/-- The violation list `runBootstrap` (docs.go part of cmd) accumulates over
the expanded instances. -/
def allViolations (instances : List ResourceInstance) : List PolicyViolation :=
  instances.flatMap (evaluateResource builtinRules)

/-- The provider calls the engine can issue.  `initProvider` (the provider
setup call), `getState` and `validate` are read-only; `create`, `update`
and `delete` mutate cloud state. -/
inductive ProviderCall where
  | initProvider (provider : String)
  | validate (id : String)
  | getState (id : String)
  | create (id : String)
  | update (id : String)
  | delete (id : String)
deriving DecidableEq

/-- Is the call a mutation (create, update or delete)? -/
def ProviderCall.isMutation : ProviderCall → Bool
  | .create _ => true
  | .update _ => true
  | .delete _ => true
  | _ => false

/-- The outcome `runBootstrap` reports. -/
structure BootstrapResult where
  success : Bool
  error : Option String
  violations : List PolicyViolation
  calls : List ProviderCall
deriving DecidableEq

/-- The tail of `runBootstrap` (cmd/docs.go) from policy evaluation onward,
over the already-expanded instances: evaluate all built-in policies, fail
when any error-severity violation exists, then load modules (abstracted by
`modulesOk`).  The call trace mirrors the source: bootstrap sets up
providers and validates instances but never issues a create, update or
delete. -/
def runBootstrapFromPolicy (providerNames : List String)
    (instances : List ResourceInstance) (modulesOk : Bool) : BootstrapResult :=
  { success := !hasErrors (allViolations instances) && modulesOk
    error :=
      if hasErrors (allViolations instances) then
        some "bootstrap failed due to policy violations"
      else if !modulesOk then some "failed to load module"
      else none
    violations := allViolations instances
    calls := providerNames.map ProviderCall.initProvider
      ++ instances.map fun inst => ProviderCall.validate inst.id }


/-- C5: when policy evaluation over the expanded instances produces a
violation of severity `error`, bootstrap fails (success is false, with the
policy error) — and bootstrap never issues a create, update or delete
provider call at all; when no error-severity violation exists, the policy
gate does not fail bootstrap (with the module phase succeeding, bootstrap
succeeds). -/
theorem runBootstrap_policy_gate (providerNames : List String)
    (instances : List ResourceInstance) (modulesOk : Bool) :
    ((∃ v ∈ allViolations instances, v.severity = "error") →
      (runBootstrapFromPolicy providerNames instances modulesOk).success = false ∧
      (runBootstrapFromPolicy providerNames instances modulesOk).error =
        some "bootstrap failed due to policy violations") ∧
    ((∀ v ∈ allViolations instances, v.severity ≠ "error") → modulesOk = true →
      (runBootstrapFromPolicy providerNames instances modulesOk).success = true ∧
      (runBootstrapFromPolicy providerNames instances modulesOk).error = none) ∧
    (∀ c ∈ (runBootstrapFromPolicy providerNames instances modulesOk).calls,
      c.isMutation = false) := by
  have hiff : hasErrors (allViolations instances) = true ↔
      ∃ v ∈ allViolations instances, v.severity = "error" := by
    simp [hasErrors]
  refine ⟨?_, ?_, ?_⟩
  · intro hex
    have h := hiff.mpr hex
    simp [runBootstrapFromPolicy, h]
  · intro hall hmod
    have h : hasErrors (allViolations instances) = false := by
      rcases Bool.eq_false_or_eq_true (hasErrors (allViolations instances)) with h | h
      · obtain ⟨v, hv, hsev⟩ := hiff.mp h
        exact absurd hsev (hall v hv)
      · exact h
    simp [runBootstrapFromPolicy, h, hmod]
  · intro c hc
    simp only [runBootstrapFromPolicy, List.mem_append, List.mem_map] at hc
    rcases hc with ⟨p, _, rfl⟩ | ⟨i, _, rfl⟩ <;> rfl

theorem runBootstrap_policy_gate_witness :
    ((∃ v ∈ allViolations
        [{ id := "aws:ec2:instance.big", kind := "aws:ec2:instance", name := "big",
           properties := [("instance_type", Value.str "t3.large")],
           driftPolicy := none, dependsOn := [] }], v.severity = "error") ∧
      (runBootstrapFromPolicy ["aws"]
        [{ id := "aws:ec2:instance.big", kind := "aws:ec2:instance", name := "big",
           properties := [("instance_type", Value.str "t3.large")],
           driftPolicy := none, dependsOn := [] }] true).success = false) ∧
    ((∀ v ∈ allViolations
        [{ id := "aws:s3:bucket.b", kind := "aws:s3:bucket", name := "b",
           properties := [("versioning", Value.bool false)],
           driftPolicy := none, dependsOn := [] }], v.severity ≠ "error") ∧
      (runBootstrapFromPolicy ["aws"]
        [{ id := "aws:s3:bucket.b", kind := "aws:s3:bucket", name := "b",
           properties := [("versioning", Value.bool false)],
           driftPolicy := none, dependsOn := [] }] true).success = true) :=
  ⟨⟨by decide,
    ((runBootstrap_policy_gate ["aws"]
      [{ id := "aws:ec2:instance.big", kind := "aws:ec2:instance", name := "big",
         properties := [("instance_type", Value.str "t3.large")],
         driftPolicy := none, dependsOn := [] }] true).1 (by decide)).1⟩,
   ⟨by decide,
    ((runBootstrap_policy_gate ["aws"]
      [{ id := "aws:s3:bucket.b", kind := "aws:s3:bucket", name := "b",
         properties := [("versioning", Value.bool false)],
         driftPolicy := none, dependsOn := [] }] true).2.1 (by decide) rfl).1⟩⟩


/-- `Detector.AutoHeal` (part_004): the provider calls it issues.  Nothing
is issued when there is no drift policy or auto-heal is disabled; an absent
resource is created; an existing drifted resource is updated. -/
def autoHealCalls (inst : ResourceInstance) (dr : DriftResult) : List ProviderCall :=
  match inst.driftPolicy with
  | none => []
  | some p =>
      if !p.autoHeal then []
      else if dr.currentState.isNone then [ProviderCall.create inst.id]
      else if dr.hasDrift then [ProviderCall.update inst.id]
      else []

/-- What the align tick reports for one instance. -/
inductive AlignOutcome where
  | skipped
  | noPolicy
  | notified
  | healed
  | healFailed
  | unhandled
deriving DecidableEq

/-- The per-instance dispatch of `runAlignmentOnce` (cmd/align.go lines
116-147): skip non-drifted instances; report-only when there is no policy
or the policy is notify-only; attempt auto-heal (via `Detector.AutoHeal`)
only when `autoHeal` is set and `notifyOnly` is not.  `healOk` abstracts
whether the underlying provider call succeeds. -/
def alignInstance (inst : ResourceInstance) (dr : Option DriftResult)
    (healOk : Bool) : AlignOutcome × List ProviderCall :=
  match dr with
  | none => (AlignOutcome.skipped, [])
  | some d =>
      if !d.hasDrift then (AlignOutcome.skipped, [])
      else
        match inst.driftPolicy with
        | none => (AlignOutcome.noPolicy, [])
        | some p =>
            if p.notifyOnly then (AlignOutcome.notified, [])
            else if p.autoHeal then
              ((if healOk then AlignOutcome.healed else AlignOutcome.healFailed),
               autoHealCalls inst d)
            else (AlignOutcome.unhandled, [])

/-- C10: in an align tick, a drifted instance whose policy has
`notifyOnly` set is only reported — no provider call is issued — even when
`autoHeal` is also set; and whenever the align dispatch issues any call,
the policy has `autoHeal` set and `notifyOnly` unset. -/
theorem alignInstance_notifyOnly_precedence (inst : ResourceInstance)
    (dr : Option DriftResult) (healOk : Bool) :
    (∀ p, inst.driftPolicy = some p → p.notifyOnly = true →
      (alignInstance inst dr healOk).2 = [] ∧
      (∀ d, dr = some d → d.hasDrift = true →
        (alignInstance inst dr healOk).1 = AlignOutcome.notified)) ∧
    ((alignInstance inst dr healOk).2 ≠ [] →
      ∃ p, inst.driftPolicy = some p ∧ p.autoHeal = true ∧ p.notifyOnly = false) := by
  constructor
  · intro p hp hnotify
    cases dr with
    | none =>
        exact ⟨rfl, fun d hd => by cases hd⟩
    | some d =>
        by_cases hdrift : d.hasDrift = true
        · constructor
          · simp [alignInstance, hdrift, hp, hnotify]
          · intro d' hd' _
            cases hd'
            simp [alignInstance, hdrift, hp, hnotify]
        · simp only [Bool.not_eq_true] at hdrift
          constructor
          · simp [alignInstance, hdrift]
          · intro d' hd' habs
            cases hd'
            rw [hdrift] at habs
            exact Bool.noConfusion habs
  · intro hne
    cases dr with
    | none => exact absurd rfl hne
    | some d =>
        by_cases hdrift : d.hasDrift = true
        · cases hp : inst.driftPolicy with
          | none => simp [alignInstance, hdrift, hp] at hne
          | some p =>
              by_cases hnotify : p.notifyOnly = true
              · simp [alignInstance, hdrift, hp, hnotify] at hne
              · by_cases hheal : p.autoHeal = true
                · exact ⟨p, rfl, hheal, Bool.not_eq_true _ ▸ hnotify⟩
                · simp [alignInstance, hdrift, hp, hnotify, hheal] at hne
        · simp only [Bool.not_eq_true] at hdrift
          simp [alignInstance, hdrift] at hne

theorem alignInstance_notifyOnly_precedence_witness :
    (alignInstance
      { id := "aws:s3:bucket.b", kind := "aws:s3:bucket", name := "b",
        properties := [], driftPolicy := some { autoHeal := true, notifyOnly := true },
        dependsOn := [] }
      (some { hasDrift := true, differences := [], currentState := none,
              desiredState := [] }) true).2 = [] ∧
    (alignInstance
      { id := "aws:s3:bucket.b", kind := "aws:s3:bucket", name := "b",
        properties := [], driftPolicy := some { autoHeal := true, notifyOnly := true },
        dependsOn := [] }
      (some { hasDrift := true, differences := [], currentState := none,
              desiredState := [] }) true).1 = AlignOutcome.notified :=
  have h := (alignInstance_notifyOnly_precedence
    { id := "aws:s3:bucket.b", kind := "aws:s3:bucket", name := "b",
      properties := [], driftPolicy := some { autoHeal := true, notifyOnly := true },
      dependsOn := [] }
    (some { hasDrift := true, differences := [], currentState := none,
            desiredState := [] }) true).1
    { autoHeal := true, notifyOnly := true } rfl rfl
  ⟨h.1, h.2 _ rfl rfl⟩


/-- The per-node decision of `executeChanges` (cmd/commit.go): no drift
result → nothing; current state absent → create; drifted → update;
otherwise nothing.  The decision depends only on the drift results, never
on the status of other nodes. -/
def nodeCall (driftResults : List (String × DriftResult)) (nodeID : String) :
    Option ProviderCall :=
  match List.lookup nodeID driftResults with
  | none => none
  | some dr =>
      if dr.currentState.isNone then some (ProviderCall.create nodeID)
      else if dr.hasDrift then some (ProviderCall.update nodeID)
      else none

/-- Execution of one level of `executeChanges`: every node of the level is
processed (its call, if any, is issued), and the nodes whose provider call
fails are collected.  In Go the level runs as one goroutine per node and
results are collected in channel-arrival order; the per-node work is
independent, so the model processes the level in its (sorted) list order. -/
def execLevel (driftResults : List (String × DriftResult)) (fails : String → Bool)
    (level : List String) : List ProviderCall × List String :=
  (level.filterMap (nodeCall driftResults),
   level.filter fun id => (nodeCall driftResults id).isSome && fails id)

/-- The outcome `executeChanges` accumulates into `config.ExecutionResult`:
the provider calls issued, the nodes whose call failed, and the overall
success flag. -/
structure ExecOutcome where
  calls : List ProviderCall
  failed : List String
  success : Bool

/-- `executeChanges` (cmd/commit.go lines 125-232): walk the level grouping
in order; inside each level, issue the drift-indicated call for every node
(there is no dependency-failure check anywhere in the body — failures only
flip `Success` and record errors); `fails` abstracts which provider calls
error. -/
def executeChanges (levels : List (List String))
    (driftResults : List (String × DriftResult)) (fails : String → Bool) :
    ExecOutcome :=
  levels.foldl
    (fun acc level =>
      let r := execLevel driftResults fails level
      { calls := acc.calls ++ r.1
        failed := acc.failed ++ r.2
        success := acc.success && r.2.isEmpty })
    { calls := [], failed := [], success := true }

theorem executeChanges_calls_eq (levels : List (List String))
    (driftResults : List (String × DriftResult)) (fails : String → Bool) :
    (executeChanges levels driftResults fails).calls =
      levels.flatten.filterMap (nodeCall driftResults) := by
  suffices h : ∀ (ls : List (List String)) (acc : ExecOutcome),
      (ls.foldl
        (fun acc level =>
          let r := execLevel driftResults fails level
          { calls := acc.calls ++ r.1
            failed := acc.failed ++ r.2
            success := acc.success && r.2.isEmpty })
        acc).calls = acc.calls ++ ls.flatten.filterMap (nodeCall driftResults) by
    simpa using h levels { calls := [], failed := [], success := true }
  intro ls
  induction ls with
  | nil => intro acc; simp
  | cons level t ih =>
      intro acc
      simp only [List.foldl_cons, ih, List.flatten_cons, List.filterMap_append]
      simp [execLevel, List.append_assoc]

/-- C4 counterexample: in the commit executor, with node `B` depending on
node `A` (so `B` sits in the level after `A`), both resources absent, and
the provider call for `A` failing, the create call for `B` is still issued:
a node whose dependency failed is executed, not skipped. -/
theorem executeChanges_failed_dependency_not_skipped :
    (executeChanges (getExecutionOrder [("A", []), ("B", ["A"])])
      [("A", { hasDrift := true, differences := [], currentState := none,
               desiredState := [] }),
       ("B", { hasDrift := true, differences := [], currentState := none,
               desiredState := [] })]
      (fun id => id == "A")).failed = ["A"] ∧
    ProviderCall.create "B" ∈
      (executeChanges (getExecutionOrder [("A", []), ("B", ["A"])])
        [("A", { hasDrift := true, differences := [], currentState := none,
                 desiredState := [] }),
         ("B", { hasDrift := true, differences := [], currentState := none,
                 desiredState := [] })]
        (fun id => id == "A")).calls := by
  decide

/-- C4 amended: during commit execution every node of every level has its
drift-indicated provider call issued, independently of which provider calls
fail — a node whose dependency failed is executed all the same (nothing is
skipped), and a failure inside a level does not cancel the other nodes of
that level. -/
theorem executeChanges_executes_all_levels (levels : List (List String))
    (driftResults : List (String × DriftResult)) (fails fails2 : String → Bool) :
    (∀ id ∈ levels.flatten, ∀ c, nodeCall driftResults id = some c →
      c ∈ (executeChanges levels driftResults fails).calls) ∧
    (executeChanges levels driftResults fails).calls =
      (executeChanges levels driftResults fails2).calls := by
  refine ⟨?_, ?_⟩
  · intro id hid c hc
    rw [executeChanges_calls_eq]
    exact List.mem_filterMap.mpr ⟨id, hid, hc⟩
  · rw [executeChanges_calls_eq, executeChanges_calls_eq]

theorem executeChanges_executes_all_levels_witness :
    ProviderCall.update "B" ∈
      (executeChanges [["A"], ["B"]]
        [("B", { hasDrift := true, differences := [],
                 currentState := some [("x", Value.int 1)], desiredState := [] })]
        (fun _ => true)).calls :=
  (executeChanges_executes_all_levels [["A"], ["B"]]
    [("B", { hasDrift := true, differences := [],
             currentState := some [("x", Value.int 1)], desiredState := [] })]
    (fun _ => true) (fun _ => false)).1 "B" (by decide) _ (by decide)


deriving instance DecidableEq for Except

/-- Abstraction of the third-party `expr-lang` Compile/Run pipeline used by
`Parser.evaluateExpr` (part_007) for non-simple expressions.  It is an
external dependency of the repository, not part of its sources; `none`
stands for a compile or runtime failure.  All theorems below hold for every
oracle. -/
abbrev ExprOracle := String → List (String × Value) → Option Value

/-- The opening token of an expression fragment (a dollar sign followed by
an opening brace). -/
def openTok : String := "$\x7b"

/-- The closing brace character. -/
def closeChar : Char := Char.ofNat 125

/-- The operator characters of `isSimpleVariable` (part_007):
space, arithmetic, brackets, braces, comparisons, connectives, `?`, `:`. -/
def opChars : List Char :=
  [' ', '+', '-', '*', '/', '(', ')', '[', ']',
   Char.ofNat 123, Char.ofNat 125, '=', '<', '>', '!', '&', '|', '?', ':']

/-- `isSimpleVariable` (part_007): no operator characters or spaces. -/
def isSimpleVariable (e : String) : Bool :=
  !(e.toList.any fun c => opChars.contains c)

/-- Non-overlapping occurrence count, `strings.Count` for a non-empty
pattern.  Every step consumes at least one character, so fuel equal to the
subject length suffices. -/
def countSubAux (pat : List Char) : Nat → List Char → Nat
  | _, [] => 0
  | 0, _ => 0
  | fuel + 1, c :: rest =>
      if pat ≠ [] ∧ leadsWith pat (c :: rest) then
        1 + countSubAux pat fuel (List.drop (pat.length - 1) rest)
      else countSubAux pat fuel rest

/-- `strings.Count` (for the non-empty patterns the parser uses). -/
def countSub (s pat : String) : Nat :=
  countSubAux pat.toList s.toList.length s.toList

/-- `strings.Index` on character lists: the first position where the
pattern occurs, or `none`. -/
def indexOfSubAux (pat : List Char) : List Char → Nat → Option Nat
  | [], i => if pat.isEmpty then some i else none
  | c :: rest, i =>
      if leadsWith pat (c :: rest) then some i
      else indexOfSubAux pat rest (i + 1)

/-- `Parser.evaluateExpr` (part_007): a variable bound in scope evaluates to
its value; an unbound simple variable is deferred — the original
`$\x7b…\x7d` token is returned verbatim; otherwise the expression goes to
the `expr-lang` oracle, whose failure also returns the token verbatim.
The Go function never returns an error. -/
def evaluateExpr (oracle : ExprOracle) (vars : List (String × Value))
    (exprStr : String) : Value :=
  match List.lookup exprStr vars with
  | some v => v
  | none =>
      if isSimpleVariable exprStr then
        Value.str (openTok ++ exprStr ++ String.singleton closeChar)
      else
        match oracle exprStr vars with
        | some v => v
        | none => Value.str (openTok ++ exprStr ++ String.singleton closeChar)

mutual

/-- `fmt.Sprintf("%v", value)` on embedded values, used by the
mixed-content substitution loop.  (For mappings Go sorts the keys; the
association list is formatted in list order here — nothing proved below
depends on mapping formatting.) -/
def govFormat : Value → String
  | .str s => s
  | .int n => toString n
  | .bool b => cond b "true" "false"
  | .null => "<nil>"
  | .list xs => "[" ++ govFormatList xs ++ "]"
  | .map kvs => "map[" ++ govFormatMap kvs ++ "]"

/-- Space-separated element formatting of a sequence. -/
def govFormatList : List Value → String
  | [] => ""
  | [v] => govFormat v
  | v :: rest => govFormat v ++ " " ++ govFormatList rest

/-- Space-separated `key:value` formatting of a mapping. -/
def govFormatMap : List (String × Value) → String
  | [] => ""
  | [(k, v)] => k ++ ":" ++ govFormat v
  | (k, v) :: rest => k ++ ":" ++ govFormat v ++ " " ++ govFormatMap rest

end

/-- The mixed-content loop of `Parser.evaluateExpression` (part_007): find
the next `$\x7b`, find the following closing brace (missing → the
"unclosed expression" error), evaluate the fragment, splice the formatted
value in, and rescan from the start.  When a fragment is preserved verbatim
(deferred evaluation), the Go loop rescans it forever and never terminates;
fuel exhaustion models that divergence as an error.  On inputs where the Go
loop terminates, the result is independent of any sufficiently large fuel. -/
def mixedLoopAux (oracle : ExprOracle) (vars : List (String × Value)) :
    Nat → List Char → Except String (List Char)
  | 0, _ => .error "unresolved expression fragment: the substitution loop diverges"
  | fuel + 1, s =>
      match indexOfSubAux openTok.toList s 0 with
      | none => .ok s
      | some start =>
          match indexOfSubAux [closeChar] (s.drop start) 0 with
          | none => .error "unclosed expression"
          | some endRel =>
              let endAbs := endRel + start
              let exprStr : String := ⟨(s.drop (start + 2)).take (endAbs - (start + 2))⟩
              let value := evaluateExpr oracle vars exprStr
              mixedLoopAux oracle vars fuel
                (s.take start ++ (govFormat value).toList ++ s.drop (endAbs + 1))

/-- `Parser.evaluateExpression` (part_007): strings without `$\x7b` pass
through unchanged; a whole-string single fragment keeps the native value
type of the expression; anything else goes through the mixed-content
substitution loop and stringifies. -/
def evaluateExpression (oracle : ExprOracle) (vars : List (String × Value))
    (fuel : Nat) (input : String) : Except String Value :=
  if strContains input openTok = false then .ok (.str input)
  else
    let cs := input.toList
    if leadsWith openTok.toList cs && (cs.getLast? == some closeChar)
        && (countSub input openTok == 1) then
      .ok (evaluateExpr oracle vars ⟨(cs.drop 2).dropLast⟩)
    else
      (mixedLoopAux oracle vars fuel cs).map fun out => .str ⟨out⟩


/-- `config.Resource` (part_006): one resource declaration.  `count` and
`for_each` are dynamic (`interface\x7b\x7d`) fields. -/
structure Resource where
  kind : String
  name : String
  count : Option Value
  forEach : Option Value
  properties : StateMap
  driftPolicy : Option DriftPolicy
  dependsOn : List String

mutual

/-- The map case of `Parser.processValueReflectWithVisited` (part_007):
string-valued entries are evaluated (`SetMapIndex` accepts any resulting
type); other entries recurse. -/
def procMapEntries (oracle : ExprOracle) (vars : List (String × Value)) (fuel : Nat) :
    List (String × Value) → Except String (List (String × Value))
  | [] => .ok []
  | (k, Value.str s) :: rest =>
      match evaluateExpression oracle vars fuel s with
      | .error e => .error e
      | .ok v =>
          match procMapEntries oracle vars fuel rest with
          | .error e => .error e
          | .ok rest2 => .ok ((k, v) :: rest2)
  | (k, v) :: rest =>
      match procValInner oracle vars fuel v with
      | .error e => .error e
      | .ok v2 =>
          match procMapEntries oracle vars fuel rest with
          | .error e => .error e
          | .ok rest2 => .ok ((k, v2) :: rest2)

/-- Recursion into non-string values reached through an interface:
reflection cannot write through an interface element, so strings here are
left untouched (mappings are still rewritten in place via `SetMapIndex`,
and sequence elements recurse). -/
def procValInner (oracle : ExprOracle) (vars : List (String × Value)) (fuel : Nat) :
    Value → Except String Value
  | Value.map m =>
      match procMapEntries oracle vars fuel m with
      | .error e => .error e
      | .ok m2 => .ok (Value.map m2)
  | Value.list xs =>
      match procValList oracle vars fuel xs with
      | .error e => .error e
      | .ok xs2 => .ok (Value.list xs2)
  | v => .ok v

/-- Elementwise recursion into a sequence value. -/
def procValList (oracle : ExprOracle) (vars : List (String × Value)) (fuel : Nat) :
    List Value → Except String (List Value)
  | [] => .ok []
  | v :: rest =>
      match procValInner oracle vars fuel v with
      | .error e => .error e
      | .ok v2 =>
          match procValList oracle vars fuel rest with
          | .error e => .error e
          | .ok rest2 => .ok (v2 :: rest2)

end

/-- The string case of `Parser.processValueReflectWithVisited` (part_007)
for a settable string slot (a struct field such as `Kind` and `Name`, or a
`DependsOn` element): evaluate; a string result is written back; a
non-string result makes `reflect.Value.Set` panic on the string slot,
modeled as an error. -/
def procStringField (oracle : ExprOracle) (vars : List (String × Value)) (fuel : Nat)
    (s : String) : Except String String :=
  match evaluateExpression oracle vars fuel s with
  | .error e => .error e
  | .ok (Value.str t) => .ok t
  | .ok _ => .error "panic: reflect.Set of a non-string value on a string field"

/-- The instance-variable scope of `Parser.createInstance` (part_007): the
per-iteration variables override the document variables. -/
def overrideVars (pvars vars : List (String × Value)) : List (String × Value) :=
  vars ++ pvars

/-- `Parser.createInstance` (part_007): substitute in a shallow copy of the
declaration under the instance scope — the name directly (only a string
result is written back), then the whole struct via reflection (kind, name
again, properties, depends_on; the `count`/`for_each` interface fields are
unreachable for reflection writes and stay untouched) — and build the
instance with `id = kind + "." + name`.

`resourceCopy := resource` copies the struct but not the `Properties` map
or the `DependsOn` backing array: every iteration of one declaration
processes, and mutates in place via `SetMapIndex` (respectively slice
element writes), the SAME map and array.  The model therefore threads that
shared state explicitly: `props` and `deps` are the state left by the
previous iteration, and the updated state is returned alongside the
instance.  The `kind` and `name` strings are value fields and are evaluated
fresh from the declaration each iteration. -/
def createInstance (oracle : ExprOracle) (pvars : List (String × Value)) (fuel : Nat)
    (r : Resource) (props : StateMap) (deps : List String)
    (vars : List (String × Value)) :
    Except String (ResourceInstance × StateMap × List String) :=
  let ivars := overrideVars pvars vars
  let name1 : Except String String :=
    if strContains r.name openTok then
      match evaluateExpression oracle ivars fuel r.name with
      | .error e => .error e
      | .ok (Value.str t) => .ok t
      | .ok _ => .ok r.name
    else .ok r.name
  match name1 with
  | .error e => .error e
  | .ok n1 =>
      match procStringField oracle ivars fuel r.kind with
      | .error e => .error e
      | .ok kind2 =>
          match procStringField oracle ivars fuel n1 with
          | .error e => .error e
          | .ok name2 =>
              match procMapEntries oracle ivars fuel props with
              | .error e => .error e
              | .ok props2 =>
                  match deps.mapM (procStringField oracle ivars fuel) with
                  | .error e => .error e
                  | .ok deps2 =>
                      .ok ({ id := kind2 ++ "." ++ name2
                             kind := kind2
                             name := name2
                             properties := props2
                             driftPolicy := r.driftPolicy
                             dependsOn := deps2 }, props2, deps2)

/-- The iteration loop shared by the `count` and `for_each` branches of
`Parser.expandResource` (part_007): one `createInstance` call per
per-iteration variable scope, threading the shared properties map and
depends_on array from one iteration to the next. -/
def expandIterAux (oracle : ExprOracle) (pvars : List (String × Value)) (fuel : Nat)
    (r : Resource) :
    List (List (String × Value)) → StateMap → List String →
      Except String (List ResourceInstance × StateMap × List String)
  | [], props, deps => .ok ([], props, deps)
  | vars :: rest, props, deps =>
      match createInstance oracle pvars fuel r props deps vars with
      | .error e => .error e
      | .ok (inst, props2, deps2) =>
          match expandIterAux oracle pvars fuel r rest props2 deps2 with
          | .error e => .error e
          | .ok (insts, propsF, depsF) => .ok (inst :: insts, propsF, depsF)

/-- Run the iteration scopes of one declaration and build the instances.
Because every instance aliases the one shared properties map and
depends_on array, after expansion each instance observably carries their
final state. -/
def expandWithScopes (oracle : ExprOracle) (pvars : List (String × Value)) (fuel : Nat)
    (r : Resource) (varsList : List (List (String × Value))) :
    Except String (List ResourceInstance) :=
  match expandIterAux oracle pvars fuel r varsList r.properties r.dependsOn with
  | .error e => .error e
  | .ok (insts, propsF, depsF) =>
      .ok (insts.map fun i => { i with properties := propsF, dependsOn := depsF })

/-- `strconv.Atoi`. -/
def goAtoi (s : String) : Except String Int :=
  let digitsToNat : List Char → Option Nat := fun cs =>
    if cs.isEmpty then none
    else cs.foldl (fun acc c =>
      match acc with
      | none => none
      | some n => if c.isDigit then some (n * 10 + (c.toNat - 48)) else none)
      (some 0)
  match s.toList with
  | '-' :: rest =>
      match digitsToNat rest with
      | some n => .ok (-(n : Int))
      | none => .error "invalid syntax"
  | '+' :: rest =>
      match digitsToNat rest with
      | some n => .ok (n : Int)
      | none => .error "invalid syntax"
  | cs =>
      match digitsToNat cs with
      | some n => .ok (n : Int)
      | none => .error "invalid syntax"

/-- `Parser.resolveCount` (part_007): integers pass through unchanged (no
sign check); strings go through `evaluateExpr` and then an integer result
or a parseable string is accepted; anything else is an error. -/
def resolveCount (oracle : ExprOracle) (vars : List (String × Value)) :
    Value → Except String Int
  | Value.int n => .ok n
  | Value.str s =>
      match evaluateExpr oracle vars s with
      | Value.int n => .ok n
      | Value.str t => goAtoi t
      | _ => .error "count expression must evaluate to an integer"
  | _ => .error "count must be an integer or expression"

/-- `Parser.resolveForEach` (part_007): a sequence passes through; a string
of the shape `$\x7b…\x7d` is evaluated and must yield a sequence; any
other string is a one-element sequence; anything else is an error. -/
def resolveForEach (oracle : ExprOracle) (vars : List (String × Value)) :
    Value → Except String (List Value)
  | Value.list xs => .ok xs
  | Value.str s =>
      if leadsWith openTok.toList s.toList
          && (s.toList.getLast? == some closeChar) then
        match evaluateExpr oracle vars ⟨(s.toList.drop 2).dropLast⟩ with
        | Value.list xs => .ok xs
        | _ => .error "for_each expression must evaluate to an array"
      else .ok [Value.str s]
  | _ => .error "for_each must be an array or expression"

/-- The per-item iteration variables of the `for_each` branch of
`Parser.expandResource` (part_007): a string item binds `region` (and only
`region`); any other item binds `item` (and only `item`). -/
def forEachVars : Value → List (String × Value)
  | Value.str s => [("region", Value.str s)]
  | v => [("item", v)]

/-- `Parser.expandResource` (part_007): `count` takes precedence; `count`
resolving to `n` runs the instance loop `0 ≤ i < n` (a non-positive `n`
silently yields no instances); `for_each` iterates its items under
`forEachVars`; otherwise a single instance.  All iterations of one
declaration run through `expandWithScopes` over the shared state. -/
def expandResource (oracle : ExprOracle) (pvars : List (String × Value)) (fuel : Nat)
    (r : Resource) : Except String (List ResourceInstance) :=
  match r.count with
  | some c =>
      match resolveCount oracle pvars c with
      | .error e => .error e
      | .ok n =>
          expandWithScopes oracle pvars fuel r
            ((List.range n.toNat).map fun i => [("index", Value.int (i : Int))])
  | none =>
      match r.forEach with
      | some fe =>
          match resolveForEach oracle pvars fe with
          | .error e => .error e
          | .ok items => expandWithScopes oracle pvars fuel r (items.map forEachVars)
      | none => expandWithScopes oracle pvars fuel r [[]]

/-- `Parser.ExpandResources` (part_007): expand every declaration in
document order and concatenate; the first error aborts.  There is no
duplicate-ID check anywhere in the pass. -/
def expandResources (oracle : ExprOracle) (pvars : List (String × Value)) (fuel : Nat) :
    List Resource → Except String (List ResourceInstance)
  | [] => .ok []
  | r :: rest =>
      match expandResource oracle pvars fuel r with
      | .error e => .error e
      | .ok insts =>
          match expandResources oracle pvars fuel rest with
          | .error e => .error e
          | .ok rest2 => .ok (insts ++ rest2)


/-- The preserved-verbatim form of a deferred expression fragment. -/
def exprToken (e : String) : String :=
  openTok ++ e ++ String.singleton closeChar

/-- An `expr-lang` oracle on which every compile fails — the behaviour for
every expression the library cannot compile. -/
def demoOracle : ExprOracle := fun _ _ => none

theorem evaluateExpression_no_fragment (oracle : ExprOracle)
    (vars : List (String × Value)) (fuel : Nat) (s : String)
    (h : strContains s openTok = false) :
    evaluateExpression oracle vars fuel s = .ok (.str s) := by
  simp [evaluateExpression, h]

theorem procStringField_no_fragment (oracle : ExprOracle)
    (vars : List (String × Value)) (fuel : Nat) (s : String)
    (h : strContains s openTok = false) :
    procStringField oracle vars fuel s = .ok s := by
  simp [procStringField, evaluateExpression_no_fragment oracle vars fuel s h]

theorem evaluateExpression_unbound_q (oracle : ExprOracle)
    (vars : List (String × Value)) (fuel : Nat)
    (hq : List.lookup "q" vars = none) :
    evaluateExpression oracle vars fuel (exprToken "q") =
      .ok (.str (exprToken "q")) := by
  have he : exprToken "q" = "$\x7bq\x7d" := rfl
  have h1 : strContains "$\x7bq\x7d" openTok = true := by decide
  have h2 : (leadsWith openTok.toList "$\x7bq\x7d".toList
      && ("$\x7bq\x7d".toList.getLast? == some closeChar)
      && (countSub "$\x7bq\x7d" openTok == 1)) = true := by decide
  have h3 : (⟨("$\x7bq\x7d".toList.drop 2).dropLast⟩ : String) = "q" := by decide
  have h4 : isSimpleVariable "q" = true := by decide
  rw [he]
  simp only [evaluateExpression, h1, Bool.true_eq_false, if_false, h2, if_true, h3]
  simp only [evaluateExpr, hq, h4, if_true]
  decide

theorem evaluateExpression_exprToken (oracle : ExprOracle)
    (vars : List (String × Value)) (fuel : Nat) (e : String)
    (h1 : strContains (exprToken e) openTok = true)
    (h2 : (leadsWith openTok.toList (exprToken e).toList
      && ((exprToken e).toList.getLast? == some closeChar)
      && (countSub (exprToken e) openTok == 1)) = true)
    (h3 : (⟨((exprToken e).toList.drop 2).dropLast⟩ : String) = e) :
    evaluateExpression oracle vars fuel (exprToken e) =
      .ok (evaluateExpr oracle vars e) := by
  simp only [evaluateExpression, h1, Bool.true_eq_false, if_false, h2, if_true, h3]

theorem evaluateExpression_item_token (oracle : ExprOracle)
    (vars : List (String × Value)) (fuel : Nat)
    (hub : List.lookup "item" vars = none) :
    evaluateExpression oracle vars fuel (exprToken "item") =
      .ok (Value.str (exprToken "item")) := by
  rw [evaluateExpression_exprToken oracle vars fuel "item" (by decide) (by decide)
    (by decide)]
  have h4 : isSimpleVariable "item" = true := by decide
  simp only [evaluateExpr, hub, h4, if_true]
  rfl

theorem evaluateExpression_region_token (oracle : ExprOracle)
    (vars : List (String × Value)) (fuel : Nat)
    (hub : List.lookup "region" vars = none) :
    evaluateExpression oracle vars fuel (exprToken "region") =
      .ok (Value.str (exprToken "region")) := by
  rw [evaluateExpression_exprToken oracle vars fuel "region" (by decide) (by decide)
    (by decide)]
  have h4 : isSimpleVariable "region" = true := by decide
  simp only [evaluateExpr, hub, h4, if_true]
  rfl

theorem evaluateExpression_item_hit (oracle : ExprOracle)
    (vars : List (String × Value)) (fuel : Nat) (v : Value)
    (h : List.lookup "item" vars = some v) :
    evaluateExpression oracle vars fuel (exprToken "item") = .ok v := by
  rw [evaluateExpression_exprToken oracle vars fuel "item" (by decide) (by decide)
    (by decide)]
  simp only [evaluateExpr, h]

theorem evaluateExpression_region_hit (oracle : ExprOracle)
    (vars : List (String × Value)) (fuel : Nat) (v : Value)
    (h : List.lookup "region" vars = some v) :
    evaluateExpression oracle vars fuel (exprToken "region") = .ok v := by
  rw [evaluateExpression_exprToken oracle vars fuel "region" (by decide) (by decide)
    (by decide)]
  simp only [evaluateExpr, h]


/-- C6 counterexample: expanding `for_each` over the string element
`us-east-1`, a property holding the `item` fragment is NOT substituted (the
token is preserved verbatim), while the `region` fragment is — so `item` is
not bound for string elements, contrary to the claim. -/
theorem expandResource_forEach_string_binds_region_only_cex :
    (expandResource demoOracle [] 10
      ⟨"aws:s3:bucket", "b", none, some (Value.list [Value.str "us-east-1"]),
       [("p", Value.str "$\x7bitem\x7d"), ("r", Value.str "$\x7bregion\x7d")],
       none, []⟩).map (List.map fun i => i.properties) =
      .ok [[("p", Value.str "$\x7bitem\x7d"), ("r", Value.str "us-east-1")]] := by
  decide

/-- A `for_each` probe declaration with the given name, no properties and
no dependencies. -/
def c6probeName (nm : String) (items : List Value) : Resource :=
  ⟨"aws:s3:bucket", nm, none, some (Value.list items), [], none, []⟩

/-- A `for_each` probe declaration with a constant name and properties
holding one `item` fragment and one `region` fragment. -/
def c6probeProps (items : List Value) : Resource :=
  ⟨"aws:s3:bucket", "b", none, some (Value.list items),
   [("p", Value.str (exprToken "item")), ("r", Value.str (exprToken "region"))],
   none, []⟩

theorem c6_step_region_name (oracle : ExprOracle) (fuel : Nat) (items : List Value)
    (s : String) (hs : strContains s openTok = false) :
    createInstance oracle [] fuel (c6probeName (exprToken "region") items) [] []
        [("region", Value.str s)] =
      .ok (⟨"aws:s3:bucket." ++ s, "aws:s3:bucket", s, [], none, []⟩, [], []) := by
  have hco : strContains (exprToken "region") openTok = true := by decide
  have he : evaluateExpression oracle [("region", Value.str s)] fuel
      (exprToken "region") = .ok (Value.str s) :=
    evaluateExpression_region_hit oracle [("region", Value.str s)] fuel
      (Value.str s) rfl
  simp [createInstance, c6probeName, overrideVars, hco, he,
        procStringField_no_fragment oracle [("region", Value.str s)] fuel
          "aws:s3:bucket" (by decide),
        procStringField_no_fragment oracle [("region", Value.str s)] fuel s hs,
        procMapEntries, List.mapM, List.mapM.loop]
  rfl

theorem c6_aux_region_name (oracle : ExprOracle) (fuel : Nat) (items : List Value) :
    ∀ tt : List String, (∀ s ∈ tt, strContains s openTok = false) →
      expandIterAux oracle [] fuel (c6probeName (exprToken "region") items)
          ((tt.map Value.str).map forEachVars) [] [] =
        .ok (tt.map fun s => ⟨"aws:s3:bucket." ++ s, "aws:s3:bucket", s, [], none, []⟩,
             [], []) := by
  intro tt
  induction tt with
  | nil => intro _; rfl
  | cons s rest ih =>
      intro htt
      have hs := htt s (List.mem_cons_self ..)
      simp only [List.map_cons, forEachVars, expandIterAux,
        c6_step_region_name oracle fuel items s hs,
        ih fun t ht => htt t (List.mem_cons_of_mem _ ht)]

theorem c6_step_item_name (oracle : ExprOracle) (fuel : Nat) (items : List Value)
    (s : String) :
    createInstance oracle [] fuel (c6probeName (exprToken "item") items) [] []
        [("region", Value.str s)] =
      .ok (⟨"aws:s3:bucket." ++ exprToken "item", "aws:s3:bucket", exprToken "item",
            [], none, []⟩, [], []) := by
  have hco : strContains (exprToken "item") openTok = true := by decide
  have he : evaluateExpression oracle [("region", Value.str s)] fuel
      (exprToken "item") = .ok (Value.str (exprToken "item")) :=
    evaluateExpression_item_token oracle [("region", Value.str s)] fuel rfl
  have hf : procStringField oracle [("region", Value.str s)] fuel (exprToken "item") =
      .ok (exprToken "item") := by
    simp [procStringField, he]
  simp [createInstance, c6probeName, overrideVars, hco, he, hf,
        procStringField_no_fragment oracle [("region", Value.str s)] fuel
          "aws:s3:bucket" (by decide),
        procMapEntries, List.mapM, List.mapM.loop]
  rfl

theorem c6_aux_item_name (oracle : ExprOracle) (fuel : Nat) (items : List Value) :
    ∀ tt : List String,
      expandIterAux oracle [] fuel (c6probeName (exprToken "item") items)
          ((tt.map Value.str).map forEachVars) [] [] =
        .ok (tt.map fun _ =>
              ⟨"aws:s3:bucket." ++ exprToken "item", "aws:s3:bucket", exprToken "item",
               [], none, []⟩,
             [], []) := by
  intro tt
  induction tt with
  | nil => rfl
  | cons s rest ih =>
      simp only [List.map_cons, forEachVars, expandIterAux,
        c6_step_item_name oracle fuel items s, ih]

theorem c6_step_props (oracle : ExprOracle) (fuel : Nat) (items : List Value)
    (P Q : StateMap) (vars : List (String × Value))
    (hP : procMapEntries oracle vars fuel P = .ok Q) :
    createInstance oracle [] fuel (c6probeProps items) P [] vars =
      .ok (⟨"aws:s3:bucket.b", "aws:s3:bucket", "b", Q, none, []⟩, Q, []) := by
  have hb : strContains "b" openTok = false := by decide
  have hov : overrideVars [] vars = vars := by
    simp [overrideVars]
  simp [createInstance, c6probeProps, hov, hb,
        procStringField_no_fragment oracle vars fuel "aws:s3:bucket" (by decide),
        procStringField_no_fragment oracle vars fuel "b" hb,
        hP, List.mapM, List.mapM.loop]
  rfl

theorem c6_aux_props (oracle : ExprOracle) (fuel : Nat) (items : List Value)
    (P : StateMap) :
    ∀ scopes : List (List (String × Value)),
      (∀ sc ∈ scopes, procMapEntries oracle sc fuel P = .ok P) →
      expandIterAux oracle [] fuel (c6probeProps items) scopes P [] =
        .ok (scopes.map fun _ => ⟨"aws:s3:bucket.b", "aws:s3:bucket", "b", P, none, []⟩,
             P, []) := by
  intro scopes
  induction scopes with
  | nil => intro _; rfl
  | cons sc rest ih =>
      intro hall
      simp only [List.map_cons, expandIterAux,
        c6_step_props oracle fuel items P P sc (hall sc (List.mem_cons_self ..)),
        ih fun t ht => hall t (List.mem_cons_of_mem _ ht)]

theorem c6_assemble (oracle : ExprOracle) (fuel : Nat) (items : List Value)
    (sc0 : List (String × Value)) (scopes : List (List (String × Value)))
    (P1 : StateMap)
    (hfirst : procMapEntries oracle sc0 fuel
      [("p", Value.str (exprToken "item")), ("r", Value.str (exprToken "region"))] =
      .ok P1)
    (hall : ∀ sc ∈ scopes, procMapEntries oracle sc fuel P1 = .ok P1) :
    (expandWithScopes oracle [] fuel (c6probeProps items) (sc0 :: scopes)).map
        (List.map fun i => i.properties) =
      .ok (P1 :: scopes.map fun _ => P1) := by
  have h1 : createInstance oracle [] fuel (c6probeProps items)
      (c6probeProps items).properties (c6probeProps items).dependsOn sc0 =
      .ok (⟨"aws:s3:bucket.b", "aws:s3:bucket", "b", P1, none, []⟩, P1, []) :=
    c6_step_props oracle fuel items
      [("p", Value.str (exprToken "item")), ("r", Value.str (exprToken "region"))]
      P1 sc0 hfirst
  have h2 := c6_aux_props oracle fuel items P1 scopes hall
  simp only [expandWithScopes, expandIterAux, h1, h2]
  simp [Except.map, List.map_map, List.map_replicate, Function.comp_def]

/-- C6 amended: the expander produces one instance per `for_each` element,
and the per-element scope binds `region` (only) for a string element and
`item` (only) for a non-string element — witnessed per element by the name,
which is evaluated fresh each iteration.  The iterations of one declaration
share a single properties map mutated in place, so a property fragment is
resolved by the first iteration whose scope can evaluate it and every
instance carries the final shared map: with integer elements, an `item`
fragment holds the FIRST element for all instances while a `region`
fragment stays verbatim; with string elements, a `region` fragment holds
the FIRST element for all instances while an `item` fragment stays
verbatim. -/
theorem expandResource_forEach_bindings (oracle : ExprOracle) (fuel : Nat) :
    (∀ ss : List String, (∀ s ∈ ss, strContains s openTok = false) →
      (expandResource oracle [] fuel
        (c6probeName (exprToken "region") (ss.map Value.str))).map
          (List.map fun i => i.name) = .ok ss) ∧
    (∀ ss : List String,
      (expandResource oracle [] fuel
        (c6probeName (exprToken "item") (ss.map Value.str))).map
          (List.map fun i => i.name) = .ok (ss.map fun _ => exprToken "item")) ∧
    (∀ (n : Int) (ns : List Int),
      (expandResource oracle [] fuel
        (c6probeProps ((n :: ns).map Value.int))).map
          (List.map fun i => i.properties) =
        .ok ((n :: ns).map fun _ =>
          [("p", Value.int n), ("r", Value.str (exprToken "region"))])) ∧
    (∀ (s : String) (ss : List String), strContains s openTok = false →
      (expandResource oracle [] fuel
        (c6probeProps ((s :: ss).map Value.str))).map
          (List.map fun i => i.properties) =
        .ok ((s :: ss).map fun _ =>
          [("p", Value.str (exprToken "item")), ("r", Value.str s)])) := by
  refine ⟨?_, ?_, ?_, ?_⟩
  · intro ss hss
    have h0 : expandResource oracle [] fuel
        (c6probeName (exprToken "region") (ss.map Value.str)) =
        expandWithScopes oracle [] fuel
          (c6probeName (exprToken "region") (ss.map Value.str))
          ((ss.map Value.str).map forEachVars) := rfl
    have hp0 : (c6probeName (exprToken "region") (ss.map Value.str)).properties =
        ([] : StateMap) := rfl
    have hd0 : (c6probeName (exprToken "region") (ss.map Value.str)).dependsOn =
        ([] : List String) := rfl
    rw [h0]
    simp only [expandWithScopes, hp0, hd0,
      c6_aux_region_name oracle fuel (ss.map Value.str) ss hss]
    simp [Except.map, List.map_map, List.map_replicate, Function.comp_def]
  · intro ss
    have h0 : expandResource oracle [] fuel
        (c6probeName (exprToken "item") (ss.map Value.str)) =
        expandWithScopes oracle [] fuel
          (c6probeName (exprToken "item") (ss.map Value.str))
          ((ss.map Value.str).map forEachVars) := rfl
    have hp0 : (c6probeName (exprToken "item") (ss.map Value.str)).properties =
        ([] : StateMap) := rfl
    have hd0 : (c6probeName (exprToken "item") (ss.map Value.str)).dependsOn =
        ([] : List String) := rfl
    rw [h0]
    simp only [expandWithScopes, hp0, hd0,
      c6_aux_item_name oracle fuel (ss.map Value.str) ss]
    simp [Except.map, List.map_map, List.map_replicate, Function.comp_def]
  · intro n ns
    have hone : evaluateExpression oracle [("item", Value.int n)] fuel
        (exprToken "item") = .ok (Value.int n) :=
      evaluateExpression_item_hit oracle [("item", Value.int n)] fuel
        (Value.int n) rfl
    have hreg : ∀ m : Int, evaluateExpression oracle [("item", Value.int m)] fuel
        (exprToken "region") = .ok (Value.str (exprToken "region")) := fun m =>
      evaluateExpression_region_token oracle [("item", Value.int m)] fuel rfl
    have hfirst : procMapEntries oracle [("item", Value.int n)] fuel
        [("p", Value.str (exprToken "item")), ("r", Value.str (exprToken "region"))] =
        .ok [("p", Value.int n), ("r", Value.str (exprToken "region"))] := by
      simp [procMapEntries, hone, hreg n]
    have hfix : ∀ m : Int, procMapEntries oracle [("item", Value.int m)] fuel
        [("p", Value.int n), ("r", Value.str (exprToken "region"))] =
        .ok [("p", Value.int n), ("r", Value.str (exprToken "region"))] := by
      intro m
      simp [procMapEntries, procValInner, hreg m]
    have hall : ∀ sc ∈ ((ns.map Value.int).map forEachVars),
        procMapEntries oracle sc fuel
          [("p", Value.int n), ("r", Value.str (exprToken "region"))] =
        .ok [("p", Value.int n), ("r", Value.str (exprToken "region"))] := by
      intro sc hsc
      obtain ⟨v, hv, rfl⟩ := List.mem_map.mp hsc
      obtain ⟨m, _, rfl⟩ := List.mem_map.mp hv
      exact hfix m
    have h0 : expandResource oracle [] fuel (c6probeProps ((n :: ns).map Value.int)) =
        expandWithScopes oracle [] fuel (c6probeProps ((n :: ns).map Value.int))
          (((n :: ns).map Value.int).map forEachVars) := rfl
    have hsplit : (((n :: ns).map Value.int).map forEachVars) =
        [("item", Value.int n)] :: ((ns.map Value.int).map forEachVars) := by
      simp [forEachVars]
    rw [h0, hsplit,
      c6_assemble oracle fuel ((n :: ns).map Value.int) [("item", Value.int n)]
        ((ns.map Value.int).map forEachVars)
        [("p", Value.int n), ("r", Value.str (exprToken "region"))] hfirst hall]
    simp [List.map_map, Function.comp_def]
  · intro s ss hs
    have hitem : ∀ t : String, evaluateExpression oracle [("region", Value.str t)] fuel
        (exprToken "item") = .ok (Value.str (exprToken "item")) := fun t =>
      evaluateExpression_item_token oracle [("region", Value.str t)] fuel rfl
    have hregv : evaluateExpression oracle [("region", Value.str s)] fuel
        (exprToken "region") = .ok (Value.str s) :=
      evaluateExpression_region_hit oracle [("region", Value.str s)] fuel
        (Value.str s) rfl
    have hfirst : procMapEntries oracle [("region", Value.str s)] fuel
        [("p", Value.str (exprToken "item")), ("r", Value.str (exprToken "region"))] =
        .ok [("p", Value.str (exprToken "item")), ("r", Value.str s)] := by
      simp [procMapEntries, hitem s, hregv]
    have hfix : ∀ t : String, procMapEntries oracle [("region", Value.str t)] fuel
        [("p", Value.str (exprToken "item")), ("r", Value.str s)] =
        .ok [("p", Value.str (exprToken "item")), ("r", Value.str s)] := by
      intro t
      simp [procMapEntries, hitem t,
        evaluateExpression_no_fragment oracle [("region", Value.str t)] fuel s hs]
    have hall : ∀ sc ∈ ((ss.map Value.str).map forEachVars),
        procMapEntries oracle sc fuel
          [("p", Value.str (exprToken "item")), ("r", Value.str s)] =
        .ok [("p", Value.str (exprToken "item")), ("r", Value.str s)] := by
      intro sc hsc
      obtain ⟨v, hv, rfl⟩ := List.mem_map.mp hsc
      obtain ⟨t, _, rfl⟩ := List.mem_map.mp hv
      exact hfix t
    have h0 : expandResource oracle [] fuel (c6probeProps ((s :: ss).map Value.str)) =
        expandWithScopes oracle [] fuel (c6probeProps ((s :: ss).map Value.str))
          (((s :: ss).map Value.str).map forEachVars) := rfl
    have hsplit : (((s :: ss).map Value.str).map forEachVars) =
        [("region", Value.str s)] :: ((ss.map Value.str).map forEachVars) := by
      simp [forEachVars]
    rw [h0, hsplit,
      c6_assemble oracle fuel ((s :: ss).map Value.str) [("region", Value.str s)]
        ((ss.map Value.str).map forEachVars)
        [("p", Value.str (exprToken "item")), ("r", Value.str s)] hfirst hall]
    simp [List.map_map, Function.comp_def]

theorem expandResource_forEach_bindings_witness :
    ((expandResource demoOracle [] 10
      (c6probeName (exprToken "region") (["us-east-1", "us-west-2"].map Value.str))).map
        (List.map fun i => i.name) = .ok ["us-east-1", "us-west-2"]) ∧
    ((expandResource demoOracle [] 10
      (c6probeProps (["us-east-1", "us-west-2"].map Value.str))).map
        (List.map fun i => i.properties) =
      .ok (["us-east-1", "us-west-2"].map fun _ =>
        [("p", Value.str (exprToken "item")), ("r", Value.str "us-east-1")])) :=
  ⟨(expandResource_forEach_bindings demoOracle 10).1 ["us-east-1", "us-west-2"]
    (by decide),
   (expandResource_forEach_bindings demoOracle 10).2.2.2 "us-east-1" ["us-west-2"]
    (by decide)⟩

/-- C7 counterexample: a declaration with `count = 2` and a constant name
expands successfully into two instances with the same ID — duplicate
instance IDs are not rejected. -/
theorem expandResources_duplicate_ids_accepted_cex :
    (expandResources demoOracle [] 10
      [⟨"k", "a", some (Value.int 2), none, [], none, []⟩]).map
        (List.map fun i => i.id) = .ok ["k.a", "k.a"] := by
  decide

/-- C7 amended: resource expansion performs no duplicate-ID check — for any
kind and name without expression fragments, `count = 2` expands
successfully into two instances that share the ID `kind.name`; expanded
sets can therefore carry duplicate IDs. -/
theorem expandResource_count_duplicate_ids (oracle : ExprOracle)
    (pvars : List (String × Value)) (fuel : Nat) (k nm : String)
    (dp : Option DriftPolicy)
    (hk : strContains k openTok = false) (hnm : strContains nm openTok = false) :
    (expandResource oracle pvars fuel ⟨k, nm, some (Value.int 2), none, [], dp, []⟩).map
        (List.map fun i => i.id) =
      .ok [k ++ "." ++ nm, k ++ "." ++ nm] := by
  have hci : ∀ vars, createInstance oracle pvars fuel
      ⟨k, nm, some (Value.int 2), none, [], dp, []⟩ [] [] vars =
      .ok (⟨k ++ "." ++ nm, k, nm, [], dp, []⟩, [], []) := by
    intro vars
    simp [createInstance, hnm,
      procStringField_no_fragment oracle (overrideVars pvars vars) fuel k hk,
      procStringField_no_fragment oracle (overrideVars pvars vars) fuel nm hnm,
      procMapEntries, List.mapM, List.mapM.loop]
    rfl
  have h0 : expandResource oracle pvars fuel ⟨k, nm, some (Value.int 2), none, [], dp, []⟩ =
      expandWithScopes oracle pvars fuel ⟨k, nm, some (Value.int 2), none, [], dp, []⟩
        [[("index", Value.int 0)], [("index", Value.int 1)]] := rfl
  rw [h0]
  simp only [expandWithScopes, expandIterAux, hci]
  rfl

theorem expandResource_count_duplicate_ids_witness :
    (expandResource demoOracle [] 10
      ⟨"aws:s3:bucket", "logs", some (Value.int 2), none, [], none, []⟩).map
        (List.map fun i => i.id) =
      .ok ["aws:s3:bucket" ++ "." ++ "logs", "aws:s3:bucket" ++ "." ++ "logs"] :=
  expandResource_count_duplicate_ids demoOracle [] 10 "aws:s3:bucket" "logs" none
    (by decide) (by decide)

/-- C8 counterexample: a resource whose name is an expression fragment over
an unbound variable expands successfully — no fatal error — and the
instance keeps the unresolved fragment in its name. -/
theorem expandResource_unresolved_token_accepted_cex :
    (expandResource demoOracle [] 10
      ⟨"k", "$\x7bq\x7d", none, none, [], none, []⟩).map
        (List.map fun i => i.name) = .ok ["$\x7bq\x7d"] ∧
    strContains "$\x7bq\x7d" openTok = true := by
  decide

/-- C8 amended: an expression fragment that still fails to evaluate during
the expansion-time retry is NOT a fatal error — `evaluateExpr` returns the
original fragment verbatim, expansion succeeds, and the expanded instance
keeps the unresolved token in its name. -/
theorem expandResource_preserves_unresolved_token (oracle : ExprOracle)
    (pvars : List (String × Value)) (fuel : Nat) (k : String)
    (hk : strContains k openTok = false) (hq : List.lookup "q" pvars = none) :
    (expandResource oracle pvars fuel ⟨k, exprToken "q", none, none, [], none, []⟩).map
        (List.map fun i => i.name) = .ok [exprToken "q"] ∧
    strContains (exprToken "q") openTok = true := by
  have hco : strContains (exprToken "q") openTok = true := by decide
  have he1 := evaluateExpression_unbound_q oracle pvars fuel hq
  have hf2 : procStringField oracle pvars fuel (exprToken "q") = .ok (exprToken "q") := by
    simp [procStringField, he1]
  refine ⟨?_, hco⟩
  simp [expandResource, expandWithScopes, expandIterAux, createInstance, overrideVars,
        hco, he1, hf2, procStringField_no_fragment oracle pvars fuel k hk,
        procMapEntries, List.mapM, List.mapM.loop]
  rfl

theorem expandResource_preserves_unresolved_token_witness :
    (expandResource demoOracle [] 10
      ⟨"aws:s3:bucket", exprToken "q", none, none, [], none, []⟩).map
        (List.map fun i => i.name) = .ok [exprToken "q"] :=
  (expandResource_preserves_unresolved_token demoOracle [] 10 "aws:s3:bucket"
    (by decide) rfl).1

/-- C9 counterexample: a declaration whose count is the integer −1 expands
successfully to zero instances — a negative count is not rejected. -/
theorem expandResource_negative_count_not_rejected_cex :
    expandResource demoOracle [] 10
      ⟨"k", "a", some (Value.int (-1)), none, [], none, []⟩ = .ok [] := by
  decide

/-- C9 amended: a count resolving to the integer 0 produces zero instances,
and a count resolving to a negative integer is NOT rejected — the
expansion loop simply does not run, so it likewise silently produces zero
instances with no error. -/
theorem expandResource_nonpositive_count_no_instances (oracle : ExprOracle)
    (pvars : List (String × Value)) (fuel : Nat) (r : Resource) (n : Int)
    (hc : r.count = some (Value.int n)) (hn : n ≤ 0) :
    expandResource oracle pvars fuel r = .ok [] := by
  simp [expandResource, hc, resolveCount, Int.toNat_of_nonpos hn, expandWithScopes,
        expandIterAux, List.range_zero]

theorem expandResource_nonpositive_count_no_instances_witness :
    expandResource demoOracle [] 10
      ⟨"k", "a", some (Value.int (-3)), none, [], none, []⟩ = .ok [] :=
  expandResource_nonpositive_count_no_instances demoOracle [] 10
    ⟨"k", "a", some (Value.int (-3)), none, [], none, []⟩ (-3) rfl (by decide)

end Runestone
